import Mathlib

/-!
Shallow embedding of the core of `libxcp` (`src/libxcp/src/operations.rs`):
the per-file copy engine (`CopyHandle`), the progress batcher (`StatSender`),
and the directory-tree walker (`tree_walker`).

Machine integers: the Rust code uses `u64` throughout; we model values as
`Nat` and insert an explicit `% 2 ^ 64` exactly where the Rust code performs
`u64` arithmetic that can wrap (the shared byte counter's `fetch_add` and the
additions feeding it, and the `written += bytes` accumulator of `copy_bytes`).

The filesystem-primitives collaborator (`libfs`: `copy_file_bytes`,
`next_sparse_segments`, `probably_sparse`, `reflink`, `copy_permissions`,
`sync`) is external to the repository; it is modelled as an oracle record
whose fields supply the values those calls return, quantified over in the
theorems.
-/

namespace Xcp

/-- The `u64` modulus. -/
def U64 : Nat := 2 ^ 64

/-- Rust `enum Reflink` with variants `Always`, `Auto`, `Never`. -/
inductive Reflink
  | Always
  | Auto
  | Never
deriving DecidableEq, Repr

/-- The error constructors of `XcpError` that `operations.rs` produces.
`InvalidArguments` carries the offending input string (the surrounding
message text is elided); `DestinationExists` and `ReflinkFailed` carry a
message and path in Rust, elided here; `ioError` stands for any error
propagated with `?` from a filesystem primitive or channel send. -/
inductive XcpError
  | invalidArguments (s : String)
  | reflinkFailed
  | earlyShutdown
  | destinationExists
  | unknownFileType
  | invalidSource
  | ioError
deriving DecidableEq, Repr

/-- Rust `impl FromStr for Reflink`: lowercase the input and match it against
the three literal spellings, anything else is `InvalidArguments`. -/
def reflink_from_str (s : String) : Except XcpError Reflink :=
  let t := s.toLower
  if t = "always" then .ok .Always
  else if t = "auto" then .ok .Auto
  else if t = "never" then .ok .Never
  else .error (.invalidArguments s)

/-- The configuration fields of `Opts` consumed by `operations.rs`:
reflink policy, progress `block_size`, per-chunk `batch_size()`, and the
`no_perms`, `fsync`, `no_clobber` flags. -/
structure Opts where
  reflink : Reflink
  block_size : Nat
  batch_size : Nat
  no_perms : Bool
  fsync : Bool
  no_clobber : Bool
deriving DecidableEq, Repr

/-! ### Progress batcher (`StatSender::send`, `BYTE_COUNT`)

`send(Copied(bytes))` performs `BYTE_COUNT.fetch_add(bytes)` (a `u64`
atomic, so it wraps at `2^64`) obtaining the previous value `prev_written`,
and forwards the update to the channel iff
`(prev_written + bytes) / block_size > prev_written / block_size`
(the addition again being `u64` arithmetic).  `Size` and `Error` updates are
always forwarded.  Because `fetch_add` is atomic, any interleaving of sends
across any number of threads is equivalent to some sequential order of the
same chunk sizes, which is what `sendAllCopied` folds over. -/

/-- One `send(Copied(bytes))` acting on counter value `prev`: the new
counter value and whether the update was forwarded to the channel. -/
def sendCopied (bsize prev bytes : Nat) : Nat × Bool :=
  ((prev + bytes) % U64, decide (((prev + bytes) % U64) / bsize > prev / bsize))

/-- A sequence of `send(Copied ·)` calls (the serialization order of the
atomic `fetch_add`s): final counter value and number of forwarded
`Copied` messages. -/
def sendAllCopied (bsize : Nat) (prev : Nat) : List Nat → Nat × Nat
  | [] => (prev, 0)
  | b :: rest =>
    let s := sendCopied bsize prev b
    let r := sendAllCopied bsize s.1 rest
    (r.1, (if s.2 then 1 else 0) + r.2)

/-! ### Copy engine (`CopyHandle`)

The filesystem primitives are modelled by an oracle: `copy_file_bytes`
takes the bytes already written by the enclosing `copy_bytes` call and the
requested chunk size and yields the byte count the primitive reports;
`next_sparse_segments` maps a position to the `(next_data, next_hole)`
pair; `probably_sparse` and `reflink` supply those primitives' answers
(`reflink = none` models the primitive returning an error, propagated by
`?`; `some b` models `Ok(b)`).

The Rust `while` loops are given explicit fuel; a `none` result means the
fuel ran out, i.e. the loop had not finished within that many iterations. -/

/-- Oracle supplying the results of the `libfs` filesystem primitives. -/
structure FsOps where
  copy_file_bytes : Nat → Nat → Nat
  next_sparse_segments : Nat → Nat × Nat
  probably_sparse : Bool
  reflink : Option Bool

/-- Embedding of `CopyHandle::copy_bytes`: copy `len` bytes in chunks of at most
`batch` (`opts.batch_size()`), accumulating `written` (a `u64`) and
emitting a `Copied` update per chunk.  Returns the list of chunk sizes
actually reported by `copy_file_bytes` (the trace of `Copied(bytes)`
updates sent) together with the final `written` value. -/
def copy_bytes (fs : FsOps) (batch len : Nat) : Nat → Nat → Option (List Nat × Nat)
  | written, 0 =>
    if written < len then none else some ([], written)
  | written, fuel + 1 =>
    if written < len then
      let bytes := fs.copy_file_bytes written (min (len - written) batch)
      match copy_bytes fs batch len ((written + bytes) % U64) fuel with
      | none => none
      | some (tr, w) => some (bytes :: tr, w)
    else some ([], written)

/-- Embedding of `CopyHandle::copy_sparse`: skip from data-segment to data-segment,
copying `next_hole - next_data` bytes each time and jumping the cursor to
`next_hole`; on completion it returns `Ok(len)` (the metadata length),
discarding the per-segment written counts.  `bfuel` is the fuel handed to
each inner `copy_bytes` loop. -/
def copy_sparse (fs : FsOps) (batch len bfuel : Nat) : Nat → Nat → Option (List Nat × Nat)
  | pos, 0 =>
    if pos < len then none else some ([], len)
  | pos, fuel + 1 =>
    if pos < len then
      let seg := fs.next_sparse_segments pos
      match copy_bytes fs batch (seg.2 - seg.1) 0 bfuel with
      | none => none
      | some (tr, _written) =>
        match copy_sparse fs batch len bfuel seg.2 fuel with
        | none => none
        | some (tr2, total) => some (tr ++ tr2, total)
    else some ([], len)

/-- Embedding of `CopyHandle::try_reflink`: under policy `Always` or `Auto` attempt the
clone; `Ok(true)` short-circuits, a clone reporting failure is fatal under
`Always` and falls through under `Auto`; policy `Never` never attempts. -/
def try_reflink (fs : FsOps) (o : Opts) : Except XcpError Bool :=
  match o.reflink with
  | .Always | .Auto =>
    match fs.reflink with
    | none => .error .ioError
    | some true => .ok true
    | some false =>
      if o.reflink = Reflink.Always then .error .reflinkFailed
      else .ok false
  | .Never => .ok false

/-- Lines 137–141 of `copy_file`: the byte-copy fallback — sparse copy when
the source is probably sparse, else a dense `copy_bytes` of the whole
length. -/
def copy_data (fs : FsOps) (o : Opts) (len bfuel sfuel : Nat) :
    Option (List Nat × Except XcpError Nat) :=
  if fs.probably_sparse then
    match copy_sparse fs o.batch_size len bfuel 0 sfuel with
    | none => none
    | some (tr, total) => some (tr, .ok total)
  else
    match copy_bytes fs o.batch_size len 0 bfuel with
    | none => none
    | some (tr, total) => some (tr, .ok total)

/-- Embedding of `CopyHandle::copy_file`: reflink first; a successful clone returns the
metadata length with no byte copy, otherwise fall through to the byte-copy
fallback.  The first component is the trace of chunk-copy calls. -/
def copy_file (fs : FsOps) (o : Opts) (len bfuel sfuel : Nat) :
    Option (List Nat × Except XcpError Nat) :=
  match try_reflink fs o with
  | .error e => some ([], .error e)
  | .ok true => some ([], .ok len)
  | .ok false => copy_data fs o len bfuel sfuel

/-- The oracle for a primitive that always reports `0` bytes copied (a
permitted return of the chunked-copy primitive when nothing moves). -/
def zeroFs : FsOps where
  copy_file_bytes := fun _ _ => 0
  next_sparse_segments := fun p => (p, p)
  probably_sparse := false
  reflink := some false

/-- The oracle for a well-behaved dense primitive: every chunked-copy call
transfers exactly the requested byte count. -/
def idFs : FsOps where
  copy_file_bytes := fun _ r => r
  next_sparse_segments := fun p => (p, p)
  probably_sparse := false
  reflink := some false

/-- A source whose clone attempt succeeds. -/
def cloneFs : FsOps where
  copy_file_bytes := fun _ r => r
  next_sparse_segments := fun p => (p, p)
  probably_sparse := false
  reflink := some true

/-- A probably-sparse source of length 10 whose segment oracle reports data
on `[0, 4)` and a hole on `[4, 10)`. -/
def sparseFs : FsOps where
  copy_file_bytes := fun _ r => r
  next_sparse_segments := fun p => if p = 0 then (0, 4) else (10, 10)
  probably_sparse := true
  reflink := some false

/-- Options with reflink policy `Never` (block size 1, batch size 4, all
flags off). -/
def neverOpts : Opts := ⟨.Never, 1, 4, false, false, false⟩

/-- Options with reflink policy `Always`. -/
def alwaysOpts : Opts := ⟨.Always, 1, 4, false, false, false⟩

/-- Options with reflink policy `Auto`. -/
def autoOpts : Opts := ⟨.Auto, 1, 4, false, false, false⟩

/-! ### Tree walker (`tree_walker`)

The walk over the source trees is modelled as the sequential processing of
the list of surviving directory entries (the entries `WalkDir` yields in
traversal order, after the ignore filter, flattened across the source
roots).  Each entry carries the data the loop body reads: its file type,
whether its computed target path already exists, its metadata length, and
abstract identifiers for its source path, link target and target path.
The loop body's effects — status-channel sends, work-queue sends, and
directory creations — are recorded as an event trace; `Error` and `Size`
updates pass through `StatSender::send` unbatched, so the trace is exactly
what the channel receives. -/

/-- The `libfs::FileType` classification as matched by the walker. -/
inductive FileType
  | File
  | Symlink
  | Dir
  | Special
  | Other
deriving DecidableEq, Repr

/-- One surviving entry of the walk, with its precomputed target path. -/
structure Entry where
  ftype : FileType
  target_exists : Bool
  len : Nat
  src : Nat
  link : Nat
  target : Nat
deriving DecidableEq, Repr

/-- Rust `enum Operation` — the work items `Copy`, `Link`, `Special`. -/
inductive Operation
  | Copy (src target : Nat)
  | Link (lfile target : Nat)
  | Special (src target : Nat)
deriving DecidableEq, Repr

/-- An observable effect of the walker loop body. -/
inductive WalkEvent
  | sendSize (n : Nat)
  | sendError (e : XcpError)
  | enqueue (op : Operation)
  | createDir (target : Nat)
deriving DecidableEq, Repr

/-- The body of the walker loop (lines 253–290 of `operations.rs`) for one
entry: the no-clobber check first, then dispatch on the file type. -/
def process_entry (no_clobber : Bool) (e : Entry) :
    List WalkEvent × Except XcpError Unit :=
  if no_clobber && e.target_exists then
    ([.sendError .destinationExists], .error .earlyShutdown)
  else
    match e.ftype with
    | .File => ([.sendSize e.len, .enqueue (.Copy e.src e.target)], .ok ())
    | .Symlink => ([.enqueue (.Link e.link e.target)], .ok ())
    | .Dir => ([.createDir e.target], .ok ())
    | .Special => ([.enqueue (.Special e.src e.target)], .ok ())
    | .Other => ([], .error .unknownFileType)

/-- Embedding of `tree_walker`: process the entries in traversal order, stopping at the
first failing entry; the trace collects the events in the order the
walker's own execution performs them. -/
def tree_walker (no_clobber : Bool) :
    List Entry → List WalkEvent × Except XcpError Unit
  | [] => ([], .ok ())
  | e :: rest =>
    let r := process_entry no_clobber e
    match r.2 with
    | .error err => (r.1, .error err)
    | .ok _ =>
      let w := tree_walker no_clobber rest
      (r.1 ++ w.1, w.2)

/-- Is an event the `Error(DestinationExists)` status update? -/
def is_dest_exists (ev : WalkEvent) : Bool :=
  match ev with
  | .sendError .destinationExists => true
  | _ => false

/-- A regular-file entry whose target does not pre-exist. -/
def fileEntry : Entry := ⟨.File, false, 100, 1, 0, 11⟩

/-- A regular-file entry whose computed target path pre-exists. -/
def conflictEntry : Entry := ⟨.File, true, 50, 2, 0, 12⟩

/-- A regular-file entry appearing after the conflict in the walk. -/
def lateEntry : Entry := ⟨.File, false, 7, 3, 0, 13⟩

/-- A directory entry. -/
def dirEntry : Entry := ⟨.Dir, false, 0, 4, 0, 14⟩

/-! ### Finalisation (`CopyHandle::finalise_copy`, `impl Drop for CopyHandle`)

The permission-copy and fsync primitives are modelled by an oracle record
of their results.  `drop_handle` is the body of `Drop::drop`: its return
type is only an event trace — there is no error channel out of `drop`, a
failing `finalise_copy` is logged and swallowed.  `with_handle` models the
host language's scoped-release guarantee that the code relies on by
implementing `Drop`: whatever the body's outcome (normal return or early
error), the handle's `drop` runs exactly once when the handle is released,
and the body's outcome is returned unchanged. -/

/-- Oracle for the `copy_permissions` and `sync` primitives. -/
structure FinaliseOps where
  copy_permissions : Except XcpError Unit
  sync : Except XcpError Unit

/-- An observable effect of finalisation. -/
inductive DropEvent
  | finaliseCall
  | permsCall
  | syncCall
  | logError (e : XcpError)
deriving DecidableEq, Repr

/-- Embedding of `CopyHandle::finalise_copy`: copy permissions unless `no_perms`, then
fsync if `fsync`; the first failing primitive propagates its error via
`?`.  Returns the trace of primitive calls made alongside the result. -/
def finalise_copy (no_perms fsync : Bool) (fo : FinaliseOps) :
    List DropEvent × Except XcpError Unit :=
  if no_perms = false then
    match fo.copy_permissions with
    | .error e => ([DropEvent.permsCall], .error e)
    | .ok _ =>
      if fsync then ([DropEvent.permsCall, DropEvent.syncCall], fo.sync)
      else ([DropEvent.permsCall], .ok ())
  else
    if fsync then ([DropEvent.syncCall], fo.sync)
    else ([], .ok ())

/-- Embedding of `impl Drop for CopyHandle`: run `finalise_copy` once and log (never
propagate) any error it reports. -/
def drop_handle (no_perms fsync : Bool) (fo : FinaliseOps) : List DropEvent :=
  let r := finalise_copy no_perms fsync fo
  DropEvent.finaliseCall :: r.1 ++
    (match r.2 with
     | .error e => [DropEvent.logError e]
     | .ok _ => [])

/-- A scope owning a `CopyHandle`: the body runs to its outcome (normal
return or early error), then release runs `drop` exactly once; the body's
outcome is what the caller sees. -/
def with_handle (α : Type) (body : Except XcpError α) (no_perms fsync : Bool)
    (fo : FinaliseOps) : Except XcpError α × List DropEvent :=
  (body, drop_handle no_perms fsync fo)

/-- Does finalisation's `Except` carry a success? -/
def exceptOk (r : Except XcpError Unit) : Bool :=
  match r with
  | .ok _ => true
  | .error _ => false

/-- Event-trace predicates for counting finalisation effects. -/
def is_finalise_call (ev : DropEvent) : Bool :=
  match ev with
  | .finaliseCall => true
  | _ => false

def is_perms_call (ev : DropEvent) : Bool :=
  match ev with
  | .permsCall => true
  | _ => false

def is_sync_call (ev : DropEvent) : Bool :=
  match ev with
  | .syncCall => true
  | _ => false

def is_log_err (ev : DropEvent) : Bool :=
  match ev with
  | .logError _ => true
  | _ => false

/-! ### Supporting lemmas -/

/-- The walk over a clean prefix (no pre-existing targets, no unknown file
types) succeeds and its trace contains no `Error(DestinationExists)`
status update. -/
lemma tree_walker_clean (nc : Bool) (l : List Entry)
    (h : ∀ x ∈ l, x.target_exists = false ∧ x.ftype ≠ FileType.Other) :
    (tree_walker nc l).2 = .ok () ∧
    (tree_walker nc l).1.countP is_dest_exists = 0 := by
  induction l with
  | nil => simp [tree_walker]
  | cons e rest ih =>
    obtain ⟨hex, hft⟩ := h e (by simp)
    obtain ⟨ih1, ih2⟩ := ih (fun x hx => h x (by simp [hx]))
    have hpe : (process_entry nc e).2 = .ok () ∧
        (process_entry nc e).1.countP is_dest_exists = 0 := by
      unfold process_entry
      rw [hex]
      cases hft' : e.ftype <;>
        simp_all [is_dest_exists, List.countP_cons]
    obtain ⟨hpe1, hpe2⟩ := hpe
    simp only [tree_walker, hpe1]
    constructor
    · exact ih1
    · simp [List.countP_append, hpe2, ih2]

/-- Splitting the walk after a prefix that succeeds: the suffix's events
follow the prefix's events, and the overall result is the suffix's. -/
lemma tree_walker_append (nc : Bool) (l₁ l₂ : List Entry)
    (h : (tree_walker nc l₁).2 = .ok ()) :
    tree_walker nc (l₁ ++ l₂) =
      ((tree_walker nc l₁).1 ++ (tree_walker nc l₂).1, (tree_walker nc l₂).2) := by
  induction l₁ with
  | nil => simp [tree_walker]
  | cons e rest ih =>
    simp only [tree_walker] at h
    cases hr : (process_entry nc e).2 with
    | error err => rw [hr] at h; simp at h
    | ok u =>
      rw [hr] at h
      simp at h
      simp only [List.cons_append, tree_walker, hr, List.append_eq]
      rw [ih h]
      simp [List.append_assoc]

lemma sendAllCopied_counter (bsize : Nat) (prev : Nat) (l : List Nat)
    (h : prev + l.sum < U64) :
    (sendAllCopied bsize prev l).1 = prev + l.sum := by
  induction l generalizing prev with
  | nil => simp [sendAllCopied]
  | cons b rest ih =>
    simp only [List.sum_cons] at h
    have hb1 : prev + b < U64 := by omega
    have hmod : (prev + b) % U64 = prev + b := Nat.mod_eq_of_lt hb1
    simp only [sendAllCopied, sendCopied, hmod]
    rw [ih (prev + b) (by omega)]
    simp only [List.sum_cons]
    omega

/-- Per-step boundary count: when `b ≤ bsize`, the quotient advances by at
most one, so the forwarded-message indicator equals the quotient difference. -/
lemma sendAllCopied_count (bsize : Nat) (hB : 0 < bsize) (prev : Nat)
    (l : List Nat) (h : prev + l.sum < U64) (hb : ∀ b ∈ l, b ≤ bsize) :
    (sendAllCopied bsize prev l).2 = (prev + l.sum) / bsize - prev / bsize := by
  induction l generalizing prev with
  | nil => simp [sendAllCopied]
  | cons b rest ih =>
    have hble : b ≤ bsize := hb b (by simp)
    simp only [List.sum_cons] at h
    have hb1 : prev + b < U64 := by omega
    have hmod : (prev + b) % U64 = prev + b := Nat.mod_eq_of_lt hb1
    have hmono : prev / bsize ≤ (prev + b) / bsize :=
      Nat.div_le_div_right (Nat.le_add_right prev b)
    have hstep : (prev + b) / bsize ≤ prev / bsize + 1 := by
      calc (prev + b) / bsize ≤ (prev + bsize) / bsize :=
            Nat.div_le_div_right (Nat.add_le_add_left hble prev)
        _ = prev / bsize + 1 := by
            rw [Nat.add_div_right prev hB]
    have hmono2 : (prev + b) / bsize ≤ (prev + b + rest.sum) / bsize :=
      Nat.div_le_div_right (Nat.le_add_right _ _)
    simp only [sendAllCopied, sendCopied, hmod]
    rw [ih (prev + b) (by omega) (fun x hx => hb x (by simp [hx]))]
    simp only [List.sum_cons, ← Nat.add_assoc]
    by_cases hcross : (prev + b) / bsize > prev / bsize
    · simp only [hcross, decide_eq_true_eq, if_pos]
      omega
    · simp [hcross]
      omega

/-- Soundness of the `copy_bytes` loop: whenever it completes (for any
fuel), and the primitive never reports more than the requested chunk size,
the final `written` is exactly `len` and the chunk sizes sum to the bytes
written beyond the starting point. -/
lemma copy_bytes_sound (fs : FsOps) (batch len : Nat)
    (hle : ∀ w r, fs.copy_file_bytes w r ≤ r) (hlen : len < U64) :
    ∀ fuel written tr w, written ≤ len →
      copy_bytes fs batch len written fuel = some (tr, w) →
      w = len ∧ written + tr.sum = w := by
  intro fuel
  induction fuel with
  | zero =>
    intro written tr w hwl heq
    by_cases hlt : written < len
    · simp [copy_bytes, hlt] at heq
    · simp [copy_bytes, hlt] at heq
      obtain ⟨h1, h2⟩ := heq
      subst h1; subst h2
      simp; omega
  | succ fuel ih =>
    intro written tr w hwl heq
    by_cases hlt : written < len
    · simp only [copy_bytes, hlt, if_true] at heq
      set bytes := fs.copy_file_bytes written (min (len - written) batch) with hbytes
      have hb : bytes ≤ min (len - written) batch := hle _ _
      have hble : written + bytes ≤ len := by omega
      have hmod : (written + bytes) % U64 = written + bytes :=
        Nat.mod_eq_of_lt (by omega)
      rw [hmod] at heq
      cases hrec : copy_bytes fs batch len (written + bytes) fuel with
      | none => rw [hrec] at heq; simp at heq
      | some p =>
        obtain ⟨tr1, w1⟩ := p
        rw [hrec] at heq
        simp only [Option.some.injEq, Prod.mk.injEq] at heq
        obtain ⟨h1, h2⟩ := heq
        obtain ⟨hw, hsum⟩ := ih (written + bytes) tr1 w1 hble hrec
        subst h1; subst h2
        refine ⟨hw, ?_⟩
        simp only [List.sum_cons]
        omega
    · simp [copy_bytes, hlt] at heq
      obtain ⟨h1, h2⟩ := heq
      subst h1; subst h2
      simp; omega

/-- Completeness of the `copy_bytes` loop: if every primitive call makes
strictly positive progress (and never overshoots the request), fuel equal
to the remaining length suffices and the loop returns `written = len`. -/
lemma copy_bytes_complete (fs : FsOps) (batch len : Nat) (hbatch : 0 < batch)
    (hlen : len < U64)
    (hpos : ∀ w r, 0 < r → 0 < fs.copy_file_bytes w r)
    (hle : ∀ w r, fs.copy_file_bytes w r ≤ r) :
    ∀ fuel written, written ≤ len → len ≤ written + fuel →
      ∃ tr, copy_bytes fs batch len written fuel = some (tr, len) := by
  intro fuel
  induction fuel with
  | zero =>
    intro written hwl hlw
    have hw : written = len := by omega
    subst hw
    exact ⟨[], by simp [copy_bytes]⟩
  | succ fuel ih =>
    intro written hwl hlw
    by_cases hlt : written < len
    · have hreqpos : 0 < min (len - written) batch := by omega
      set bytes := fs.copy_file_bytes written (min (len - written) batch) with hbytes
      have hbpos : 0 < bytes := hpos _ _ hreqpos
      have hb : bytes ≤ min (len - written) batch := hle _ _
      have hble : written + bytes ≤ len := by omega
      have hmod : (written + bytes) % U64 = written + bytes :=
        Nat.mod_eq_of_lt (by omega)
      obtain ⟨tr, htr⟩ := ih (written + bytes) hble (by omega)
      refine ⟨bytes :: tr, ?_⟩
      simp only [copy_bytes, hlt, if_true, ← hbytes, hmod, htr]
    · have hw : written = len := by omega
      subst hw
      exact ⟨[], by simp [copy_bytes]⟩

/-- Lemma: `copy_sparse` returns the metadata length whenever it completes,
whatever the segment oracle produced. -/
lemma copy_sparse_sound (fs : FsOps) (batch len bfuel : Nat) :
    ∀ fuel pos tr total,
      copy_sparse fs batch len bfuel pos fuel = some (tr, total) → total = len := by
  intro fuel
  induction fuel with
  | zero =>
    intro pos tr total h
    by_cases hlt : pos < len
    · simp [copy_sparse, hlt] at h
    · simp [copy_sparse, hlt] at h
      exact h.2.symm
  | succ fuel ih =>
    intro pos tr total h
    by_cases hlt : pos < len
    · simp only [copy_sparse, hlt, if_true] at h
      cases hcb : copy_bytes fs batch
          ((fs.next_sparse_segments pos).2 - (fs.next_sparse_segments pos).1)
          0 bfuel with
      | none => rw [hcb] at h; simp at h
      | some p =>
        obtain ⟨tr1, w1⟩ := p
        rw [hcb] at h
        cases hcs : copy_sparse fs batch len bfuel (fs.next_sparse_segments pos).2 fuel with
        | none => rw [hcs] at h; simp at h
        | some q =>
          obtain ⟨tr2, t2⟩ := q
          rw [hcs] at h
          simp only [Option.some.injEq, Prod.mk.injEq] at h
          obtain ⟨-, h2⟩ := h
          subst h2
          exact ih _ _ _ hcs
    · simp [copy_sparse, hlt] at h
      exact h.2.symm

/-- A completed byte-copy fallback always reports the metadata length. -/
lemma copy_data_ok_len (fs : FsOps) (o : Opts) (len bfuel sfuel : Nat)
    (tr : List Nat) (w : Nat)
    (hle : ∀ x r, fs.copy_file_bytes x r ≤ r) (hlen : len < U64)
    (hs : copy_data fs o len bfuel sfuel = some (tr, .ok w)) : w = len := by
  unfold copy_data at hs
  by_cases hsp : fs.probably_sparse
  · simp only [hsp, if_true] at hs
    cases hcs : copy_sparse fs o.batch_size len bfuel 0 sfuel with
    | none => rw [hcs] at hs; simp at hs
    | some p =>
      obtain ⟨tr1, total⟩ := p
      rw [hcs] at hs
      simp only [Option.some.injEq, Prod.mk.injEq, Except.ok.injEq] at hs
      obtain ⟨-, h2⟩ := hs
      subst h2
      exact copy_sparse_sound fs o.batch_size len bfuel sfuel 0 tr1 total hcs
  · simp only [hsp, if_false, Bool.false_eq_true] at hs
    cases hcb : copy_bytes fs o.batch_size len 0 bfuel with
    | none => rw [hcb] at hs; simp at hs
    | some p =>
      obtain ⟨tr1, total⟩ := p
      rw [hcb] at hs
      simp only [Option.some.injEq, Prod.mk.injEq, Except.ok.injEq] at hs
      obtain ⟨-, h2⟩ := hs
      subst h2
      exact (copy_bytes_sound fs o.batch_size len hle hlen bfuel 0 tr1 total
        (by omega) hcb).1

/-- On the dense path a completed fallback's chunk sizes sum to the length. -/
lemma copy_data_dense_sum (fs : FsOps) (o : Opts) (len bfuel sfuel : Nat)
    (tr : List Nat) (w : Nat)
    (hle : ∀ x r, fs.copy_file_bytes x r ≤ r) (hlen : len < U64)
    (hsp : fs.probably_sparse = false)
    (hs : copy_data fs o len bfuel sfuel = some (tr, .ok w)) :
    tr.sum = len ∧ w = len := by
  unfold copy_data at hs
  rw [hsp] at hs
  simp only [if_false, Bool.false_eq_true] at hs
  cases hcb : copy_bytes fs o.batch_size len 0 bfuel with
  | none => rw [hcb] at hs; simp at hs
  | some p =>
    obtain ⟨tr1, total⟩ := p
    rw [hcb] at hs
    simp only [Option.some.injEq, Prod.mk.injEq, Except.ok.injEq] at hs
    obtain ⟨h1, h2⟩ := hs
    subst h1; subst h2
    have h3 := copy_bytes_sound fs o.batch_size len hle hlen bfuel 0 _ _
      (by omega) hcb
    omega

/-! ### Claim theorems -/

/-- C1 (amended): for block size `B > 0` and any serialization of
`send(Copied(n­ᵢ))` calls (the order in which the atomic `fetch_add`s land)
with chunk sizes summing to `T`, *provided every chunk size is at most `B`
and the total stays below `2^64`*, the channel receives exactly `T / B`
`Copied` messages, independent of the chunk-size distribution and
interleaving; and each single `send(Copied(b))` on counter value `prev`
(with no wraparound) adds `b` to the counter and forwards the update
exactly when `(prev + b) / B > prev / B`. -/
theorem c1_progress_batching (B : Nat) (l : List Nat) (prev b : Nat)
    (hB : 0 < B) (hsum : l.sum < U64) (hchunk : ∀ n ∈ l, n ≤ B)
    (hpb : prev + b < U64) :
    (sendAllCopied B 0 l).2 = l.sum / B ∧
    sendCopied B prev b = (prev + b, decide ((prev + b) / B > prev / B)) := by
  constructor
  · have h := sendAllCopied_count B hB 0 l (by omega) hchunk
    simpa using h
  · simp [sendCopied, Nat.mod_eq_of_lt hpb]

/-- Witness for C1 at `B = 3`, chunks `[2, 2, 2]`, and a single send of `2`
on counter value `4`. -/
theorem c1_progress_batching_witness :
    (sendAllCopied 3 0 [2, 2, 2]).2 = ([2, 2, 2] : List Nat).sum / 3 ∧
    sendCopied 3 4 2 = (4 + 2, decide ((4 + 2) / 3 > 4 / 3)) :=
  c1_progress_batching 3 [2, 2, 2] 4 2 (by decide) (by decide) (by decide)
    (by decide)

/-- Counterexample to C1 as stated: with block size `B = 10 > 0` and a
single chunk of `25` (sum `T = 25`), the channel receives `1` `Copied`
message, not `⌊T/B⌋ = 2` — a chunk that crosses several block boundaries
forwards only one message, so the count is not independent of the
chunk-size distribution. -/
theorem c1_progress_batching_counterexample :
    0 < 10 ∧ ([25] : List Nat).sum = 25 ∧
    (sendAllCopied 10 0 [25]).2 = 1 ∧ (25 : Nat) / 10 = 2 ∧ (1 : Nat) ≠ 2 := by
  decide

/-- C2 (amended): for a copy that completes without a successful reflink,
on the *dense* path (source not detected sparse) the sum of the chunk sizes
actually copied equals the file's recorded metadata length, and the value
returned also equals that length.  (On the sparse path the copy returns the
metadata length but the chunk sizes sum only to the data bytes copied,
holes being skipped — see the counterexample.) -/
theorem c2_transfer_total (fs : FsOps) (o : Opts) (len bfuel sfuel : Nat)
    (tr : List Nat) (w : Nat)
    (hle : ∀ x r, fs.copy_file_bytes x r ≤ r) (hlen : len < U64)
    (hnr : try_reflink fs o = .ok false)
    (hsp : fs.probably_sparse = false)
    (hs : copy_file fs o len bfuel sfuel = some (tr, .ok w)) :
    tr.sum = len ∧ w = len := by
  unfold copy_file at hs
  rw [hnr] at hs
  exact copy_data_dense_sum fs o len bfuel sfuel tr w hle hlen hsp hs

/-- Witness for C2 (amended) at a dense 8-byte file copied with policy
`Never` in 4-byte chunks. -/
theorem c2_transfer_total_witness :
    ([4, 4] : List Nat).sum = 8 ∧ (8 : Nat) = 8 :=
  c2_transfer_total idFs neverOpts 8 2 0 [4, 4] 8
    (fun _ r => Nat.le_refl r) (by decide) rfl rfl rfl

/-- Counterexample to C2 as stated: a probably-sparse 10-byte file with
data on `[0, 4)` and a hole on `[4, 10)`, copied with policy `Never`,
completes successfully with a single chunk-copy of 4 bytes: the sum of the
chunk sizes is `4 ≠ 10`, while the copy reports the full length 10. -/
theorem c2_transfer_total_counterexample :
    copy_file sparseFs neverOpts 10 4 3 = some ([4], Except.ok 10) ∧
    ([4] : List Nat).sum = 4 ∧ (4 : Nat) ≠ 10 := by
  refine ⟨rfl, rfl, by decide⟩

/-- C4: with reflink policy `Always`, when the clone attempt reports
failure, `copy_file` returns the reflink-failure error, the chunk-copy
trace is empty (zero chunk-copy calls), and no fallback byte copy is
performed. -/
theorem c4_reflink_always_failure (fs : FsOps) (o : Opts) (len bfuel sfuel : Nat)
    (ha : o.reflink = .Always) (hf : fs.reflink = some false) :
    copy_file fs o len bfuel sfuel = some ([], .error .reflinkFailed) := by
  unfold copy_file try_reflink
  rw [ha, hf]
  simp

/-- Witness for C4: an 8-byte file under policy `Always` whose clone
attempt reports failure. -/
theorem c4_reflink_always_failure_witness :
    copy_file idFs alwaysOpts 8 2 0 = some ([], .error .reflinkFailed) :=
  c4_reflink_always_failure idFs alwaysOpts 8 2 0 rfl rfl

/-- C5: with reflink policy `Auto`, when the clone attempt reports
failure, `copy_file` is exactly the byte-copy fallback (sparse or dense;
no error is produced by the fallback decision itself), and whenever it
completes successfully the total returned equals the source length. -/
theorem c5_reflink_auto_fallback (fs : FsOps) (o : Opts) (len bfuel sfuel : Nat)
    (tr : List Nat) (w : Nat)
    (hauto : o.reflink = .Auto) (hf : fs.reflink = some false)
    (hle : ∀ x r, fs.copy_file_bytes x r ≤ r) (hlen : len < U64)
    (hs : copy_file fs o len bfuel sfuel = some (tr, .ok w)) :
    copy_file fs o len bfuel sfuel = copy_data fs o len bfuel sfuel ∧
    w = len := by
  have heq : copy_file fs o len bfuel sfuel = copy_data fs o len bfuel sfuel := by
    unfold copy_file try_reflink
    rw [hauto, hf]
    simp
  refine ⟨heq, ?_⟩
  rw [heq] at hs
  exact copy_data_ok_len fs o len bfuel sfuel tr w hle hlen hs

/-- Witness for C5: an 8-byte dense file under policy `Auto` whose clone
attempt reports failure; the fallback completes with chunks `[4, 4]`. -/
theorem c5_reflink_auto_fallback_witness :
    copy_file idFs autoOpts 8 2 0 = copy_data idFs autoOpts 8 2 0 ∧
    (8 : Nat) = 8 :=
  c5_reflink_auto_fallback idFs autoOpts 8 2 0 [4, 4] 8 rfl rfl
    (fun _ r => Nat.le_refl r) (by decide) rfl

/-- C6: every `copy_file` call that completes successfully — reflinked,
sparse, or dense — returns the source file's recorded metadata length. -/
theorem c6_copy_returns_length (fs : FsOps) (o : Opts) (len bfuel sfuel : Nat)
    (tr : List Nat) (w : Nat)
    (hle : ∀ x r, fs.copy_file_bytes x r ≤ r) (hlen : len < U64)
    (hs : copy_file fs o len bfuel sfuel = some (tr, .ok w)) :
    w = len := by
  unfold copy_file at hs
  cases htr : try_reflink fs o with
  | error e => rw [htr] at hs; simp at hs
  | ok b =>
    rw [htr] at hs
    cases b with
    | true =>
      simp only [Option.some.injEq, Prod.mk.injEq, Except.ok.injEq] at hs
      exact hs.2.symm
    | false =>
      exact copy_data_ok_len fs o len bfuel sfuel tr w hle hlen hs

/-- Witness for C6: a 12-byte file whose clone attempt succeeds under
policy `Auto`; the copy returns 12 with no byte copy. -/
theorem c6_copy_returns_length_witness : (12 : Nat) = 12 :=
  c6_copy_returns_length cloneFs autoOpts 12 0 0 [] 12
    (fun _ r => Nat.le_refl r) (by decide) rfl

/-- C10: `copy_bytes(len)` terminates and returns `written = len` whenever
every chunked-copy primitive call returns a strictly positive byte count no
greater than the request (fuel `len` suffices); and with a primitive that
may return zero bytes (here: always returns zero) the loop never finishes,
whatever fuel it is given. -/
theorem c10_copy_bytes_termination (fs : FsOps) (batch len f2 : Nat)
    (hbatch : 0 < batch) (hlen : len < U64) (hlenpos : 0 < len)
    (hpos : ∀ w r, 0 < r → 0 < fs.copy_file_bytes w r)
    (hle : ∀ w r, fs.copy_file_bytes w r ≤ r) :
    Option.map Prod.snd (copy_bytes fs batch len 0 len) = some len ∧
    copy_bytes zeroFs batch len 0 f2 = none := by
  constructor
  · obtain ⟨tr, htr⟩ :=
      copy_bytes_complete fs batch len hbatch hlen hpos hle len 0
        (by omega) (by omega)
    rw [htr]
    rfl
  · induction f2 with
    | zero => simp [copy_bytes, hlenpos]
    | succ f ihf =>
      have hz : ∀ r, zeroFs.copy_file_bytes 0 r = 0 := fun _ => rfl
      simp [copy_bytes, hlenpos, hz, ihf]

/-- Witness for C10 at `batch = 2`, `len = 5`, zero-oracle fuel `7`, with
the primitive that transfers exactly what is requested. -/
theorem c10_copy_bytes_termination_witness :
    Option.map Prod.snd (copy_bytes idFs 2 5 0 5) = some 5 ∧
    copy_bytes zeroFs 2 5 0 7 = none :=
  c10_copy_bytes_termination idFs 2 5 7 (by decide) (by decide) (by decide)
    (fun _ _ h => h) (fun _ r => Nat.le_refl r)

/-- C3: walking with no-clobber enabled over entries in which exactly one
target path pre-exists (no earlier entry conflicts, and — as on any
supported platform — no entry has an unknown file type): the trace is the
clean prefix's events followed by exactly one `Error(DestinationExists)`
status update, nothing at all is emitted or enqueued for entries after the
conflict, and the walk returns the early-shutdown failure. -/
theorem c3_no_clobber_early_shutdown (l₁ l₂ : List Entry) (e : Entry)
    (h1 : ∀ x ∈ l₁, x.target_exists = false ∧ x.ftype ≠ FileType.Other)
    (he : e.target_exists = true) :
    tree_walker true (l₁ ++ e :: l₂) =
      ((tree_walker true l₁).1 ++ [WalkEvent.sendError XcpError.destinationExists],
        Except.error XcpError.earlyShutdown) ∧
    (tree_walker true (l₁ ++ e :: l₂)).1.countP is_dest_exists = 1 := by
  obtain ⟨hok, hcnt⟩ := tree_walker_clean true l₁ h1
  have happ := tree_walker_append true l₁ (e :: l₂) hok
  have hpe : process_entry true e =
      ([.sendError .destinationExists], .error .earlyShutdown) := by
    unfold process_entry
    rw [he]
    simp
  have hcons : tree_walker true (e :: l₂) =
      ([.sendError .destinationExists], .error .earlyShutdown) := by
    simp only [tree_walker, hpe]
  have hmain : tree_walker true (l₁ ++ e :: l₂) =
      ((tree_walker true l₁).1 ++ [WalkEvent.sendError XcpError.destinationExists],
        Except.error XcpError.earlyShutdown) := by
    rw [happ, hcons]
  refine ⟨hmain, ?_⟩
  rw [hmain]
  simp [List.countP_append, hcnt, is_dest_exists, List.countP_cons]

/-- Witness for C3: a clean file entry, then a conflicting one, then one
more entry that the walk never reaches. -/
theorem c3_no_clobber_early_shutdown_witness :
    tree_walker true ([fileEntry] ++ conflictEntry :: [lateEntry]) =
      ((tree_walker true [fileEntry]).1 ++
        [WalkEvent.sendError XcpError.destinationExists],
        Except.error XcpError.earlyShutdown) ∧
    (tree_walker true ([fileEntry] ++ conflictEntry :: [lateEntry])).1.countP
      is_dest_exists = 1 :=
  c3_no_clobber_early_shutdown [fileEntry] [lateEntry] conflictEntry
    (by decide) (by decide)

/-- C7: a directory entry is handled entirely in the walker's own
execution: its processing emits exactly one `createDir` (no work item is
enqueued for a directory), and in the walk's trace that `createDir`
precedes every event of every later entry — so the creation completes
before any work item for a path under the directory is placed on the work
queue. -/
theorem c7_dir_created_before_later_work (nc : Bool) (l₁ l₂ : List Entry)
    (d : Entry) (hd : d.ftype = FileType.Dir)
    (hok : (tree_walker nc l₁).2 = .ok ())
    (hnc : (nc && d.target_exists) = false) :
    tree_walker nc (l₁ ++ d :: l₂) =
      ((tree_walker nc l₁).1 ++
        WalkEvent.createDir d.target :: (tree_walker nc l₂).1,
        (tree_walker nc l₂).2) ∧
    process_entry nc d = ([WalkEvent.createDir d.target], .ok ()) := by
  have hpe : process_entry nc d = ([.createDir d.target], .ok ()) := by
    unfold process_entry
    rw [hnc, hd]
    simp
  have hcons : tree_walker nc (d :: l₂) =
      (WalkEvent.createDir d.target :: (tree_walker nc l₂).1,
        (tree_walker nc l₂).2) := by
    simp [tree_walker, hpe]
  refine ⟨?_, hpe⟩
  rw [tree_walker_append nc l₁ (d :: l₂) hok, hcons]

/-- Witness for C7: a file entry, then a directory, then a later file
entry; the directory creation sits between the prefix's events and the
later entry's events. -/
theorem c7_dir_created_before_later_work_witness :
    tree_walker false ([fileEntry] ++ dirEntry :: [lateEntry]) =
      ((tree_walker false [fileEntry]).1 ++
        WalkEvent.createDir dirEntry.target ::
          (tree_walker false [lateEntry]).1,
        (tree_walker false [lateEntry]).2) ∧
    process_entry false dirEntry =
      ([WalkEvent.createDir dirEntry.target], .ok ()) :=
  c7_dir_created_before_later_work false [fileEntry] [lateEntry] dirEntry
    rfl rfl rfl

/-- C8: for every scope owning a `CopyHandle`, whatever the body's outcome
and whatever the permission-copy and fsync primitives do, release runs
finalisation exactly once; the permission copy is attempted iff not
disabled, the fsync is attempted iff enabled (and not preempted by a
failing permission copy, whose error aborts finalisation); a finalisation
failure produces exactly one log entry and the body's outcome reaches the
caller unchanged — no finalisation error is ever propagated. -/
theorem c8_finalise_once_never_propagates (α : Type)
    (body : Except XcpError α) (np fsy : Bool) (fo : FinaliseOps) :
    (with_handle α body np fsy fo).1 = body ∧
    (with_handle α body np fsy fo).2.countP is_finalise_call = 1 ∧
    (with_handle α body np fsy fo).2.countP is_perms_call =
      (if np then 0 else 1) ∧
    (with_handle α body np fsy fo).2.countP is_sync_call =
      (if fsy && (np || exceptOk fo.copy_permissions) then 1 else 0) ∧
    (with_handle α body np fsy fo).2.countP is_log_err =
      (if exceptOk (finalise_copy np fsy fo).2 then 0 else 1) := by
  obtain ⟨p, s⟩ := fo
  cases np <;> cases fsy <;> cases p <;> cases s <;>
    simp [with_handle, drop_handle, finalise_copy, exceptOk,
      is_finalise_call, is_perms_call, is_sync_call, is_log_err,
      List.countP_cons, List.countP_append]

/-- C9: parsing a reflink-policy string is case-insensitive: `from_str`
accepts exactly the strings whose lowercase form is `always`, `auto` or
`never` (so `ALWAYS` and `Auto` are accepted), yielding the corresponding
policy, and returns an `InvalidArguments` error for every other string. -/
theorem c9_reflink_from_str_cases (s : String) :
    (reflink_from_str s = .ok Reflink.Always ↔ s.toLower = "always") ∧
    (reflink_from_str s = .ok Reflink.Auto ↔ s.toLower = "auto") ∧
    (reflink_from_str s = .ok Reflink.Never ↔ s.toLower = "never") ∧
    (reflink_from_str s = .error (XcpError.invalidArguments s) ↔
      s.toLower ≠ "always" ∧ s.toLower ≠ "auto" ∧ s.toLower ≠ "never") := by
  unfold reflink_from_str
  by_cases h1 : s.toLower = "always" <;>
    by_cases h2 : s.toLower = "auto" <;>
      by_cases h3 : s.toLower = "never" <;>
        simp_all

end Xcp
